import Mathlib

/-
  Shallow embedding of src/chafa/chafa-symbol-map.c.

  Strings are modelled as `List Char` (the C strings involved are
  NUL-terminated byte strings; list elements model the bytes before the
  terminating NUL, which is why no list element plays the role of NUL).
  Hash tables keyed by catalog indices are modelled as `Finset Nat`.
  The global catalog `chafa_symbols` lives outside this file in the C
  sources; it is passed around as an explicit `List ChafaSymbol`
  parameter holding the entries that precede the zero-codepoint
  sentinel (so iterating the whole list models the C loops that stop at
  the sentinel).
-/

namespace Chafa

/-- Modelled from the spec: the `ChafaSymbolTags` bitmask values are declared
in `chafa.h`, which is not part of the given sources. The spec fixes NONE = no
bits, HALF = HHALF or-ed with VHALF, and ALL = the union of all tag bits; the
individual tags are distinct single bits combinable by bitwise or and tested
by bitwise and. -/
def CHAFA_SYMBOL_TAG_NONE : ℕ := 0

/-- Modelled from the spec: single tag bit. -/
def CHAFA_SYMBOL_TAG_SPACE : ℕ := 1

/-- Modelled from the spec: single tag bit. -/
def CHAFA_SYMBOL_TAG_SOLID : ℕ := 2

/-- Modelled from the spec: single tag bit. -/
def CHAFA_SYMBOL_TAG_STIPPLE : ℕ := 4

/-- Modelled from the spec: single tag bit. -/
def CHAFA_SYMBOL_TAG_BLOCK : ℕ := 8

/-- Modelled from the spec: single tag bit. -/
def CHAFA_SYMBOL_TAG_BORDER : ℕ := 16

/-- Modelled from the spec: single tag bit. -/
def CHAFA_SYMBOL_TAG_DIAGONAL : ℕ := 32

/-- Modelled from the spec: single tag bit. -/
def CHAFA_SYMBOL_TAG_DOT : ℕ := 64

/-- Modelled from the spec: single tag bit. -/
def CHAFA_SYMBOL_TAG_QUAD : ℕ := 128

/-- Modelled from the spec: single tag bit. -/
def CHAFA_SYMBOL_TAG_HHALF : ℕ := 256

/-- Modelled from the spec: single tag bit. -/
def CHAFA_SYMBOL_TAG_VHALF : ℕ := 512

/-- Modelled from the spec: HALF is the joint set of the horizontal and
vertical half-block bits. -/
def CHAFA_SYMBOL_TAG_HALF : ℕ := CHAFA_SYMBOL_TAG_HHALF ||| CHAFA_SYMBOL_TAG_VHALF

/-- Modelled from the spec: single tag bit. -/
def CHAFA_SYMBOL_TAG_INVERTED : ℕ := 1024

/-- Modelled from the spec: single tag bit. -/
def CHAFA_SYMBOL_TAG_BRAILLE : ℕ := 2048

/-- Modelled from the spec: ALL is the union of every tag bit. -/
def CHAFA_SYMBOL_TAG_ALL : ℕ := 4095

/-- One catalog entry: codepoint `c` and tag bitmask `sc` (the only fields of
the C `ChafaSymbol` struct that this translation unit reads). -/
structure ChafaSymbol where
  c : ℕ
  sc : ℕ
deriving DecidableEq

/-- The all-zero `ChafaSymbol` produced by `memset` / `g_new` zeroing; used as
the terminating entry of a rebuilt symbol array. -/
def sentinelSymbol : ChafaSymbol := ⟨0, 0⟩

/-- Reading `chafa_symbols [i]`; out-of-range reads never occur on the C side
(catalog indices stored in the hash table are produced by in-range loops), so
the default value is never relevant there. -/
def entryD (cat : List ChafaSymbol) (i : ℕ) : ChafaSymbol :=
  cat.getD i sentinelSymbol

/-- The set of catalog indices whose tag bitmask intersects `tags`; this is
the set of indices visited and matched by the C loops in `add_by_tags` and
`remove_by_tags`, which scan `chafa_symbols` up to the sentinel. -/
def matchingIdx (cat : List ChafaSymbol) (tags : ℕ) : Finset ℕ :=
  (Finset.range cat.length).filter (fun i => (entryD cat i).sc &&& tags ≠ 0)

/-- C `add_by_tags`: insert every matching catalog index into the table. -/
def add_by_tags (cat : List ChafaSymbol) (sym_ht : Finset ℕ) (tags : ℕ) : Finset ℕ :=
  sym_ht ∪ matchingIdx cat tags

/-- C `remove_by_tags`: remove every matching catalog index from the table. -/
def remove_by_tags (cat : List ChafaSymbol) (sym_ht : Finset ℕ) (tags : ℕ) : Finset ℕ :=
  sym_ht \ matchingIdx cat tags

/-- The `ChafaSymbolMap` struct: `desired_symbols` is the selection hash
table (`none` models the NULL pointer of a never-initialized table),
`symbols` and `n_symbols` the derived array and its entry count,
`need_rebuild` the dirty flag and `refs` the reference count. -/
structure SymbolMap where
  desired_symbols : Option (Finset ℕ)
  symbols : List ChafaSymbol
  n_symbols : ℕ
  need_rebuild : Bool
  refs : ℕ
deriving DecidableEq

/-- C `chafa_symbol_map_init`: `memset` to zero (NULL table, NULL array,
count 0, dirty flag clear) and `refs = 1`. -/
def chafa_symbol_map_init : SymbolMap :=
  { desired_symbols := none, symbols := [], n_symbols := 0, need_rebuild := false, refs := 1 }

/-- The selection actually observed by `rebuild_symbols`: a NULL table
behaves as the empty selection there (`g_hash_table_size (NULL)` yields 0 and
the population loop is skipped). -/
def effSel (d : Option (Finset ℕ)) : Finset ℕ := d.getD ∅

/-- The comparator `compare_symbols` passed to `qsort`, as a sorting
predicate: ascending order of codepoints. -/
def cpLe (a b : ChafaSymbol) : Bool := decide (a.c ≤ b.c)

/-- The non-sentinel part of the array built by `rebuild_symbols`: the
selected catalog entries sorted by codepoint. The C code iterates the hash
table in unspecified order and then applies `qsort` with `compare_symbols`;
since the later theorems that distinguish between equal-codepoint orderings
all assume codepoints are distinct on the catalog, starting from the
index-sorted enumeration and merge-sorting by codepoint is a faithful
rendering of that pipeline. -/
def sortedSelection (cat : List ChafaSymbol) (d : Option (Finset ℕ)) : List ChafaSymbol :=
  (((effSel d).sort (· ≤ ·)).map (entryD cat)).mergeSort cpLe

/-- C `rebuild_symbols`: re-derive `symbols` (selected entries sorted by
codepoint followed by one zeroed sentinel entry), set `n_symbols` to the hash
table size and clear the dirty flag. -/
def rebuild_symbols (cat : List ChafaSymbol) (m : SymbolMap) : SymbolMap :=
  { m with
      symbols := sortedSelection cat m.desired_symbols ++ [sentinelSymbol],
      n_symbols := (effSel m.desired_symbols).card,
      need_rebuild := false }

/-- C `chafa_symbol_map_prepare`: rebuild only when dirty. -/
def chafa_symbol_map_prepare (cat : List ChafaSymbol) (m : SymbolMap) : SymbolMap :=
  if m.need_rebuild then rebuild_symbols cat m else m

/-- The scan loop body of `chafa_symbol_map_has_symbol` over the remaining
entries: exact match returns true, a stored codepoint exceeding the query
breaks out with false. -/
def scanSymbols : List ChafaSymbol → ℕ → Bool
  | [], _ => false
  | s :: rest, symbol =>
    if s.c = symbol then true
    else if symbol < s.c then false
    else scanSymbols rest symbol

/-- C `chafa_symbol_map_has_symbol`: scan the first `n_symbols` entries of
the derived array. -/
def chafa_symbol_map_has_symbol (m : SymbolMap) (symbol : ℕ) : Bool :=
  scanSymbols (m.symbols.take m.n_symbols) symbol

/-- C `chafa_symbol_map_add_by_tags`: create the table when NULL, insert the
matching indices, mark dirty. -/
def chafa_symbol_map_add_by_tags (cat : List ChafaSymbol) (m : SymbolMap) (tags : ℕ) :
    SymbolMap :=
  { m with
      desired_symbols := some (add_by_tags cat (effSel m.desired_symbols) tags),
      need_rebuild := true }

/-- C `chafa_symbol_map_remove_by_tags`: create the table when NULL, remove
the matching indices, mark dirty. -/
def chafa_symbol_map_remove_by_tags (cat : List ChafaSymbol) (m : SymbolMap) (tags : ℕ) :
    SymbolMap :=
  { m with
      desired_symbols := some (remove_by_tags cat (effSel m.desired_symbols) tags),
      need_rebuild := true }

/-- C `chafa_symbol_map_copy_contents` at the level of struct values: the
struct is copied, the selection table is duplicated (value semantics here; the
heap-level aliasing content of the duplication is treated by the heap model
further below), the derived array pointer is cleared, the copy is marked dirty
with one reference. -/
def chafa_symbol_map_copy_contents (src : SymbolMap) : SymbolMap :=
  { src with symbols := [], need_rebuild := true, refs := 1 }

/-! Selector parsing. -/

/-- ASCII lowercasing as done by `g_ascii_tolower`. -/
def asciiLower (c : Char) : Char :=
  if 'A' ≤ c ∧ c ≤ 'Z' then Char.ofNat (c.toNat + 32) else c

/-- The result `g_ascii_strncasecmp (name, slice, slice.length) == 0`, where
`name` is one of the NUL-terminated vocabulary names and `slice` stands for
the bytes at the compared position of the selector string (selector bytes are
never NUL). The C loop stops when the count runs out (equal so far: match) or
when `name` ends first (NUL versus a non-NUL byte: mismatch). -/
def gStrncasecmpEq : List Char → List Char → Bool
  | _, [] => true
  | [], _ :: _ => false
  | c1 :: t1, c2 :: t2 => asciiLower c1 = asciiLower c2 && gStrncasecmpEq t1 t2

/-- The vocabulary table `map` of `parse_symbol_tag`, in source order. -/
def symMappings : List (List Char × ℕ) :=
  [ ("all".toList, CHAFA_SYMBOL_TAG_ALL),
    ("none".toList, CHAFA_SYMBOL_TAG_NONE),
    ("space".toList, CHAFA_SYMBOL_TAG_SPACE),
    ("solid".toList, CHAFA_SYMBOL_TAG_SOLID),
    ("stipple".toList, CHAFA_SYMBOL_TAG_STIPPLE),
    ("block".toList, CHAFA_SYMBOL_TAG_BLOCK),
    ("border".toList, CHAFA_SYMBOL_TAG_BORDER),
    ("diagonal".toList, CHAFA_SYMBOL_TAG_DIAGONAL),
    ("dot".toList, CHAFA_SYMBOL_TAG_DOT),
    ("quad".toList, CHAFA_SYMBOL_TAG_QUAD),
    ("half".toList, CHAFA_SYMBOL_TAG_HALF),
    ("hhalf".toList, CHAFA_SYMBOL_TAG_HHALF),
    ("vhalf".toList, CHAFA_SYMBOL_TAG_VHALF),
    ("inverted".toList, CHAFA_SYMBOL_TAG_INVERTED),
    ("braille".toList, CHAFA_SYMBOL_TAG_BRAILLE) ]

/-- C `parse_symbol_tag`: scan the vocabulary table in order and return the
tag of the first entry whose name compares equal (in the
`g_ascii_strncasecmp` sense above) with the length-bounded slice; `none`
models the FALSE return that sets the unrecognized-tag error. -/
def parse_symbol_tag (tok : List Char) : Option ℕ :=
  (symMappings.find? (fun e => gStrncasecmpEq e.1 tok)).map (fun e => e.2)

/-- Character class of `strspn (p0, " ,")`. -/
def isSepChar (c : Char) : Bool := c = ' ' || c = ','

/-- Character class of `strspn (p0, " ")`. -/
def isSpaceChar (c : Char) : Bool := c = ' '

/-- Character class of the tag-name `strspn` (ASCII letters, both cases). -/
def isTagLetter (c : Char) : Bool := ('a' ≤ c && c ≤ 'z') || ('A' ≤ c && c ≤ 'Z')

/-- The sign test at the top of each `parse_selectors` iteration: a leading
minus or plus updates the add/remove mode flags and is consumed; anything
else leaves flags and position alone. -/
def signStep (p1 : List Char) (is_add is_remove : Bool) : Bool × Bool × List Char :=
  match p1 with
  | [] => (is_add, is_remove, [])
  | c :: rest =>
    if c = '-' then (false, true, rest)
    else if c = '+' then (true, false, rest)
    else (is_add, is_remove, c :: rest)

/-- Errors reported through the `GError` out-parameter by the parser. -/
inductive ParseError where
  /-- The unrecognized-tag error set by `parse_symbol_tag`, carrying the
  offending slice. -/
  | unrecognizedTag (tok : List Char)
  /-- The generic syntax error set when no letter follows a clause start. -/
  | malformedSelectors
deriving DecidableEq

/-- Outcome of the `parse_selectors` loop: `spin` is fuel exhaustion (shown
unreachable below), `undef` marks the undefined behavior of calling
`copy_hash_table` on a NULL `desired_symbols` table, `errRes` is the
error exit through `goto out` with the map untouched, and `okRes` carries the
final `new_syms` (possibly still NULL) to be committed. -/
inductive PResult where
  | spin
  | undef
  | errRes (e : ParseError)
  | okRes (ns : Option (Finset ℕ))
deriving DecidableEq

/-- The `while (*p0)` loop of C `parse_selectors`, fuel-indexed; each
iteration consumes at least one character, so fuel exceeding the remaining
length never runs out. State: remaining input `p0`, mode flags `is_add` and
`is_remove`, scratch table `new_syms` (`none` = not yet created). The scratch
table is created lazily by `copy_hash_table (symbol_map->desired_symbols)`
in the add and remove branches, which is undefined when that table is NULL;
the unsigned branch discards any scratch table and starts from a fresh empty
one, then forces add mode. -/
def parseLoop (cat : List ChafaSymbol) (desired : Option (Finset ℕ)) :
    ℕ → List Char → Bool → Bool → Option (Finset ℕ) → PResult
  | 0, _, _, _, _ => .spin
  | fuel + 1, p0, is_add, is_remove, new_syms =>
    if p0 = [] then .okRes new_syms else
    let p1 := p0.dropWhile isSepChar
    if p1 = [] then .okRes new_syms else
    let t := signStep p1 is_add is_remove
    let p3 := t.2.2.dropWhile isSpaceChar
    if p3 = [] then .okRes new_syms else
    let tok := p3.takeWhile isTagLetter
    if tok = [] then .errRes .malformedSelectors else
    match parse_symbol_tag tok with
    | none => .errRes (.unrecognizedTag tok)
    | some sc =>
      let p4 := p3.drop tok.length
      if t.1 then
        match new_syms, desired with
        | none, none => .undef
        | none, some d =>
          parseLoop cat desired fuel p4 t.1 t.2.1 (some (add_by_tags cat d sc))
        | some s, _ =>
          parseLoop cat desired fuel p4 t.1 t.2.1 (some (add_by_tags cat s sc))
      else if t.2.1 then
        match new_syms, desired with
        | none, none => .undef
        | none, some d =>
          parseLoop cat desired fuel p4 t.1 t.2.1 (some (remove_by_tags cat d sc))
        | some s, _ =>
          parseLoop cat desired fuel p4 t.1 t.2.1 (some (remove_by_tags cat s sc))
      else
        parseLoop cat desired fuel p4 true false (some (add_by_tags cat ∅ sc))

/-- C `chafa_symbol_map_apply_selectors` (which forwards to
`parse_selectors`): `none` models reaching undefined behavior; otherwise the
result is the new map value, the returned gboolean and the reported error.
On the error exit the map is untouched and, because `result` is initialized
to TRUE and never cleared, the returned gboolean is TRUE even then; on normal
exit the accumulated `new_syms` pointer (NULL included) replaces
`desired_symbols` and the map is marked dirty. -/
def chafa_symbol_map_apply_selectors (cat : List ChafaSymbol) (m : SymbolMap)
    (selectors : List Char) : Option (SymbolMap × Bool × Option ParseError) :=
  match parseLoop cat m.desired_symbols (selectors.length + 1) selectors false false none with
  | .spin => none
  | .undef => none
  | .errRes e => some (m, true, some e)
  | .okRes ns =>
    some ({ m with desired_symbols := ns, need_rebuild := true }, true, none)

/-- A small concrete catalog used for witnesses and counterexamples: distinct
nonzero codepoints, one entry per interesting tag and one entry carrying two
tags. -/
def testCatalog : List ChafaSymbol :=
  [ ⟨65, CHAFA_SYMBOL_TAG_BLOCK⟩,
    ⟨66, CHAFA_SYMBOL_TAG_BORDER⟩,
    ⟨67, CHAFA_SYMBOL_TAG_SPACE⟩,
    ⟨68, CHAFA_SYMBOL_TAG_DOT⟩,
    ⟨69, CHAFA_SYMBOL_TAG_STIPPLE⟩,
    ⟨70, CHAFA_SYMBOL_TAG_BLOCK ||| CHAFA_SYMBOL_TAG_DOT⟩ ]

/-- A concrete dirty map holding the selection with indices 0, 1 and 5 of the
test catalog, used in witnesses. -/
def mSel015 : SymbolMap :=
  { chafa_symbol_map_init with need_rebuild := true, desired_symbols := some {0, 1, 5} }

/-- Spec-side formulation (for comparison with the source lookup): the slice
and a vocabulary name are case-insensitively exactly equal. -/
def ciEqual (a b : List Char) : Prop :=
  a.map asciiLower = b.map asciiLower

/-- Spec-side formulation (for comparison with the source lookup): the slice
is, case-insensitively, a prefix of the vocabulary name. -/
def ciPrefixOf (tok nm : List Char) : Prop :=
  ∃ t, tok.map asciiLower ++ t = nm.map asciiLower

/-- Symbol map states reachable through the public API with catalog `cat`
(the defined outcomes of the selector call included). -/
inductive Reach (cat : List ChafaSymbol) : SymbolMap → Prop where
  | init : Reach cat chafa_symbol_map_init
  | add (m : SymbolMap) (tags : ℕ) : Reach cat m →
      Reach cat (chafa_symbol_map_add_by_tags cat m tags)
  | remove (m : SymbolMap) (tags : ℕ) : Reach cat m →
      Reach cat (chafa_symbol_map_remove_by_tags cat m tags)
  | prep (m : SymbolMap) : Reach cat m → Reach cat (chafa_symbol_map_prepare cat m)
  | copy (m : SymbolMap) : Reach cat m → Reach cat (chafa_symbol_map_copy_contents m)
  | apply (m : SymbolMap) (s : List Char) (r : SymbolMap) (b : Bool) (e : Option ParseError) :
      Reach cat m → chafa_symbol_map_apply_selectors cat m s = some (r, b, e) → Reach cat r

/-- The derived-index consistency invariant: a clean dirty flag means the
first `n_symbols` entries of the derived array are exactly the sorted
materialization of the current selection. -/
def Consistent (cat : List ChafaSymbol) (m : SymbolMap) : Prop :=
  m.need_rebuild = false →
    m.symbols.take m.n_symbols = sortedSelection cat m.desired_symbols

/-! A heap-level rendering of the hash-table handling, for the aliasing
claim about `chafa_symbol_map_copy_contents`: hash tables live in an
explicit store of allocated tables and structs hold table indices, the way
the C structs hold `GHashTable` pointers. -/

/-- The store of allocated selection hash tables; a table handle is an index
into this list. -/
abbrev HHeap := List (Finset ℕ)

/-- The `ChafaSymbolMap` struct with its `desired_symbols` pointer rendered
as a table handle into the store. -/
structure HSymbolMap where
  desired_symbols : Option ℕ
  symbols : List ChafaSymbol
  n_symbols : ℕ
  need_rebuild : Bool
  refs : ℕ
deriving DecidableEq

/-- C `copy_hash_table` at heap level: allocate a fresh table holding the
same members and return its handle. -/
def copy_hash_tableH (h : HHeap) (src : ℕ) : HHeap × ℕ :=
  (h ++ [h.getD src ∅], h.length)

/-- C `chafa_symbol_map_copy_contents` at heap level: `memcpy` the struct,
then replace the copied table handle by a freshly duplicated table when it
is non-NULL; clear the derived array, mark dirty, one reference. -/
def chafa_symbol_map_copy_contentsH (h : HHeap) (src : HSymbolMap) : HHeap × HSymbolMap :=
  match src.desired_symbols with
  | none => (h, { src with symbols := [], need_rebuild := true, refs := 1 })
  | some i =>
    let hc := copy_hash_tableH h i
    (hc.1, { src with desired_symbols := some hc.2, symbols := [], need_rebuild := true,
                      refs := 1 })

/-- C `chafa_symbol_map_add_by_tags` at heap level: allocate the table when
the handle is NULL, then update the addressed table in place and mark the
struct dirty. -/
def chafa_symbol_map_add_by_tagsH (cat : List ChafaSymbol) (h : HHeap) (m : HSymbolMap)
    (tags : ℕ) : HHeap × HSymbolMap :=
  match m.desired_symbols with
  | none =>
    (h ++ [add_by_tags cat ∅ tags],
     { m with desired_symbols := some h.length, need_rebuild := true })
  | some i =>
    (h.set i (add_by_tags cat (h.getD i ∅) tags), { m with need_rebuild := true })

/-! Helper lemmas. -/

lemma isSepChar_of_isTagLetter {c : Char} (h : isTagLetter c = true) : isSepChar c = false := by
  by_contra hc
  rw [Bool.not_eq_false, isSepChar, Bool.or_eq_true, decide_eq_true_eq, decide_eq_true_eq] at hc
  rcases hc with rfl | rfl <;> exact absurd h (by decide)

lemma isSpaceChar_of_isTagLetter {c : Char} (h : isTagLetter c = true) :
    isSpaceChar c = false := by
  by_contra hc
  rw [Bool.not_eq_false, isSpaceChar, decide_eq_true_eq] at hc
  exact absurd (hc ▸ h) (by decide)

lemma ne_minus_of_isTagLetter {c : Char} (h : isTagLetter c = true) : c ≠ '-' := by
  rintro rfl; exact absurd h (by decide)

lemma ne_plus_of_isTagLetter {c : Char} (h : isTagLetter c = true) : c ≠ '+' := by
  rintro rfl; exact absurd h (by decide)

lemma takeWhile_append_of_all {p : Char → Bool} {l1 : List Char} (l2 : List Char)
    (h : ∀ c ∈ l1, p c = true) :
    (l1 ++ l2).takeWhile p = l1 ++ l2.takeWhile p := by
  induction l1 with
  | nil => simp
  | cons c cs ih =>
    have hc : p c = true := h c (by simp)
    simp only [List.cons_append, List.takeWhile_cons, hc, if_true]
    rw [ih (fun x hx => h x (by simp [hx]))]

lemma dropWhile_eq_self_of_head {p : Char → Bool} {c : Char} {l : List Char}
    (h : p c = false) : (c :: l).dropWhile p = c :: l := by
  simp [List.dropWhile_cons, h]

/-- One iteration of the parse loop on an unsigned clause reached with both
mode flags clear: any scratch table is discarded, a fresh empty one is
populated from the tag, and the loop continues in add mode. -/
lemma parseLoop_step_reset (cat : List ChafaSymbol) (d ns : Option (Finset ℕ))
    (fuel : ℕ) (p0 s rest : List Char) (t : ℕ)
    (hdrop : p0.dropWhile isSepChar = s ++ rest)
    (hne : s ≠ []) (hlet : ∀ c ∈ s, isTagLetter c = true)
    (hrest : ∀ c ∈ rest.take 1, isTagLetter c = false)
    (htag : parse_symbol_tag s = some t) :
    parseLoop cat d (fuel + 1) p0 false false ns =
      parseLoop cat d fuel rest true false (some (add_by_tags cat ∅ t)) := by
  obtain ⟨c, cs, rfl⟩ := List.exists_cons_of_ne_nil hne
  have hc : isTagLetter c = true := hlet c (by simp)
  rw [List.cons_append] at hdrop
  have hp0 : p0 ≠ [] := by
    intro h0; rw [h0] at hdrop; exact (List.cons_ne_nil c (cs ++ rest)) hdrop.symm
  have htake : (c :: (cs ++ rest)).takeWhile isTagLetter = c :: cs := by
    rw [← List.cons_append, takeWhile_append_of_all rest hlet]
    cases rest with
    | nil => simp
    | cons r rs =>
      have : isTagLetter r = false := hrest r (by simp)
      simp [List.takeWhile_cons, this]
  have hdropsp : (c :: (cs ++ rest)).dropWhile isSpaceChar = c :: (cs ++ rest) :=
    dropWhile_eq_self_of_head (isSpaceChar_of_isTagLetter hc)
  have hdroplen : (c :: (cs ++ rest)).drop ((c :: cs).length) = rest := by
    rw [← List.cons_append]; exact List.drop_left _ _
  simp only [parseLoop, if_neg hp0, hdrop, if_neg (List.cons_ne_nil c (cs ++ rest)),
    signStep, if_neg (ne_minus_of_isTagLetter hc), if_neg (ne_plus_of_isTagLetter hc),
    hdropsp, htake, if_neg (List.cons_ne_nil c cs), htag, hdroplen,
    Bool.false_eq_true, if_false]

/-- One iteration of the parse loop on an unsigned clause reached in add
mode with a live scratch table: the tag is added to the scratch table and
the mode is unchanged. -/
lemma parseLoop_step_add (cat : List ChafaSymbol) (d : Option (Finset ℕ)) (s0 : Finset ℕ)
    (fuel : ℕ) (p0 s rest : List Char) (t : ℕ)
    (hdrop : p0.dropWhile isSepChar = s ++ rest)
    (hne : s ≠ []) (hlet : ∀ c ∈ s, isTagLetter c = true)
    (hrest : ∀ c ∈ rest.take 1, isTagLetter c = false)
    (htag : parse_symbol_tag s = some t) :
    parseLoop cat d (fuel + 1) p0 true false (some s0) =
      parseLoop cat d fuel rest true false (some (add_by_tags cat s0 t)) := by
  obtain ⟨c, cs, rfl⟩ := List.exists_cons_of_ne_nil hne
  have hc : isTagLetter c = true := hlet c (by simp)
  rw [List.cons_append] at hdrop
  have hp0 : p0 ≠ [] := by
    intro h0; rw [h0] at hdrop; exact (List.cons_ne_nil c (cs ++ rest)) hdrop.symm
  have htake : (c :: (cs ++ rest)).takeWhile isTagLetter = c :: cs := by
    rw [← List.cons_append, takeWhile_append_of_all rest hlet]
    cases rest with
    | nil => simp
    | cons r rs =>
      have : isTagLetter r = false := hrest r (by simp)
      simp [List.takeWhile_cons, this]
  have hdropsp : (c :: (cs ++ rest)).dropWhile isSpaceChar = c :: (cs ++ rest) :=
    dropWhile_eq_self_of_head (isSpaceChar_of_isTagLetter hc)
  have hdroplen : (c :: (cs ++ rest)).drop ((c :: cs).length) = rest := by
    rw [← List.cons_append]; exact List.drop_left _ _
  simp only [parseLoop, if_neg hp0, hdrop, if_neg (List.cons_ne_nil c (cs ++ rest)),
    signStep, if_neg (ne_minus_of_isTagLetter hc), if_neg (ne_plus_of_isTagLetter hc),
    hdropsp, htake, if_neg (List.cons_ne_nil c cs), htag, hdroplen, if_true]

/-- The parse loop returns the accumulated scratch table on empty remaining
input (any positive fuel). -/
lemma parseLoop_nil (cat : List ChafaSymbol) (d ns : Option (Finset ℕ))
    (fuel : ℕ) (hf : 0 < fuel) (ia ir : Bool) :
    parseLoop cat d fuel [] ia ir ns = .okRes ns := by
  cases fuel with
  | zero => omega
  | succ n => simp [parseLoop]

lemma gStrncasecmpEq_iff (nm tok : List Char) :
    gStrncasecmpEq nm tok = true ↔ ciPrefixOf tok nm := by
  induction nm generalizing tok with
  | nil =>
    cases tok with
    | nil => simp [gStrncasecmpEq, ciPrefixOf]
    | cons c t => simp [gStrncasecmpEq, ciPrefixOf]
  | cons c1 t1 ih =>
    cases tok with
    | nil => simp [gStrncasecmpEq, ciPrefixOf]
    | cons c2 t2 =>
      simp only [gStrncasecmpEq, Bool.and_eq_true, decide_eq_true_eq, ih, ciPrefixOf,
        List.map_cons, List.cons_append, List.cons.injEq]
      constructor
      · rintro ⟨h1, t, h2⟩; exact ⟨t, h1.symm, h2⟩
      · rintro ⟨t, h1, h2⟩; exact ⟨h1.symm, t, h2⟩

/-! Claims. -/

/-- C1 (code bug witness evaluation). On `"bl0ck"` the parse fails (the
leading `"bl"` is consumed as a tag clause, then the digit triggers the
generic syntax error): the map is left untouched and the error is reported,
but the returned gboolean is TRUE, although the function documentation in
the same file states that FALSE is returned on a parse error (the local
`result` variable is initialized to TRUE and never cleared on the error
exits). On `"xyz"` likewise for the unrecognized-tag error. Moreover the
claimed example `"block-"` is not treated as invalid at all: the dangling
trailing sign is consumed, the loop exits at end of string without setting an
error, and the `"block"` clause is committed. -/
theorem c1_parse_error_reported_but_returns_true :
    chafa_symbol_map_apply_selectors testCatalog chafa_symbol_map_init "bl0ck".toList =
      some (chafa_symbol_map_init, true, some .malformedSelectors) ∧
    chafa_symbol_map_apply_selectors testCatalog chafa_symbol_map_init "xyz".toList =
      some (chafa_symbol_map_init, true, some (.unrecognizedTag "xyz".toList)) ∧
    chafa_symbol_map_apply_selectors testCatalog chafa_symbol_map_init "block-".toList =
      some ({ chafa_symbol_map_init with
                desired_symbols := some {0, 5}, need_rebuild := true }, true, none) := by
  exact ⟨rfl, rfl, rfl⟩

/-- C2 counterexample. The slice `"bl"` is accepted by the tag lookup (it
resolves to the BLOCK tag), although it is not case-insensitively equal to
any of the fifteen vocabulary names: lookup does not require exact equality,
contradicting the claim. -/
theorem c2_counterexample_prefix_slice_accepted :
    parse_symbol_tag "bl".toList = some CHAFA_SYMBOL_TAG_BLOCK ∧
    ∀ e ∈ symMappings, ¬ ciEqual "bl".toList e.1 := by
  constructor
  · rfl
  · simp only [ciEqual]
    decide

/-- C2 amended: tag lookup on a bounded-length slice succeeds if and only if
the slice is, case-insensitively, a prefix (exact equality included) of at
least one of the fifteen vocabulary names; every other slice produces the
unrecognized-tag error return (`none`), never a silent no-op. -/
theorem c2_lookup_succeeds_iff_ci_prefix (tok : List Char) :
    ((parse_symbol_tag tok).isSome = true ↔
      ∃ nm ∈ symMappings.map Prod.fst, ciPrefixOf tok nm) ∧
    (parse_symbol_tag tok = none ↔
      ∀ nm ∈ symMappings.map Prod.fst, ¬ ciPrefixOf tok nm) := by
  have hs : (parse_symbol_tag tok).isSome = true ↔
      ∃ nm ∈ symMappings.map Prod.fst, ciPrefixOf tok nm := by
    rw [parse_symbol_tag]
    cases hf : symMappings.find? (fun e => gStrncasecmpEq e.1 tok) with
    | none =>
      simp only [Option.map_none', Option.isSome_none, Bool.false_eq_true, false_iff]
      rw [List.find?_eq_none] at hf
      rintro ⟨nm, hnm, hpre⟩
      rw [List.mem_map] at hnm
      obtain ⟨e, he, rfl⟩ := hnm
      exact absurd ((gStrncasecmpEq_iff e.1 tok).mpr hpre) (by simpa using hf e he)
    | some e =>
      simp only [Option.map_some', Option.isSome_some, true_iff]
      have hmem := List.mem_of_find?_eq_some hf
      have hp := List.find?_some hf
      exact ⟨e.1, List.mem_map_of_mem Prod.fst hmem, (gStrncasecmpEq_iff e.1 tok).mp hp⟩
  refine ⟨hs, ?_⟩
  rw [← Option.not_isSome_iff_eq_none, Bool.not_eq_true, ← Bool.not_eq_true,
    not_iff_comm, hs]
  push_neg
  rfl

/-- C4: whenever the selector call reports an error, the returned map state
is exactly the pre-call state; in particular the selection table and the
dirty flag are unchanged (the error exits jump over the commit). -/
theorem c4_error_leaves_map_untouched (cat : List ChafaSymbol) (m : SymbolMap)
    (s : List Char) (m2 : SymbolMap) (b : Bool) (e : ParseError)
    (h : chafa_symbol_map_apply_selectors cat m s = some (m2, b, some e)) :
    m2 = m ∧ m2.desired_symbols = m.desired_symbols ∧ m2.need_rebuild = m.need_rebuild := by
  rw [chafa_symbol_map_apply_selectors] at h
  cases hp : parseLoop cat m.desired_symbols (s.length + 1) s false false none with
  | spin => rw [hp] at h; exact absurd h (by simp)
  | undef => rw [hp] at h; exact absurd h (by simp)
  | errRes e2 =>
    rw [hp] at h
    simp only [Option.some.injEq, Prod.mk.injEq] at h
    rw [← h.1]
    exact ⟨rfl, rfl, rfl⟩
  | okRes ns => rw [hp] at h; simp at h

/-- C4 witness: the unrecognized-tag input `"xyz"` reports an error and the
map is returned unchanged. -/
theorem c4_error_leaves_map_untouched_witness :
    chafa_symbol_map_apply_selectors testCatalog chafa_symbol_map_init "xyz".toList =
      some (chafa_symbol_map_init, true, some (.unrecognizedTag "xyz".toList)) ∧
    (chafa_symbol_map_init = chafa_symbol_map_init ∧
      chafa_symbol_map_init.desired_symbols = chafa_symbol_map_init.desired_symbols ∧
      chafa_symbol_map_init.need_rebuild = chafa_symbol_map_init.need_rebuild) :=
  ⟨rfl, c4_error_leaves_map_untouched testCatalog chafa_symbol_map_init "xyz".toList
    chafa_symbol_map_init true (.unrecognizedTag "xyz".toList) rfl⟩

/-- C10: a selector string containing no clauses (empty, or spaces and
commas only) succeeds, replaces the selection container by the uninitialized
(NULL) container, whose observable selection is empty, and marks the derived
index dirty: the map is cleared rather than left unchanged. After a rebuild
the derived array is just the sentinel and the entry count is zero. -/
theorem c10_blank_selector_clears (cat : List ChafaSymbol) (m : SymbolMap)
    (s : List Char) (h : ∀ c ∈ s, isSepChar c = true) :
    chafa_symbol_map_apply_selectors cat m s =
      some ({ m with desired_symbols := none, need_rebuild := true }, true, none) ∧
    (chafa_symbol_map_prepare cat
        { m with desired_symbols := none, need_rebuild := true }).symbols =
      [sentinelSymbol] ∧
    (chafa_symbol_map_prepare cat
        { m with desired_symbols := none, need_rebuild := true }).n_symbols = 0 := by
  refine ⟨?_, ?_, ?_⟩
  · rw [chafa_symbol_map_apply_selectors]
    cases s with
    | nil => simp [parseLoop]
    | cons c cs =>
      have hd : (c :: cs).dropWhile isSepChar = [] := List.dropWhile_eq_nil_iff.mpr h
      simp [parseLoop, hd]
  · simp [chafa_symbol_map_prepare, rebuild_symbols, sortedSelection, effSel,
      Finset.sort_empty, List.mergeSort_nil]
  · simp [chafa_symbol_map_prepare, rebuild_symbols, effSel]

/-- C10 witness at the concrete blank selector `" , ,"`. -/
theorem c10_blank_selector_clears_witness :
    chafa_symbol_map_apply_selectors testCatalog chafa_symbol_map_init " , ,".toList =
      some ({ chafa_symbol_map_init with desired_symbols := none, need_rebuild := true },
        true, none) ∧
    (chafa_symbol_map_prepare testCatalog
        { chafa_symbol_map_init with desired_symbols := none, need_rebuild := true }).symbols =
      [sentinelSymbol] ∧
    (chafa_symbol_map_prepare testCatalog
        { chafa_symbol_map_init with desired_symbols := none, need_rebuild := true }).n_symbols =
      0 :=
  c10_blank_selector_clears testCatalog chafa_symbol_map_init " , ,".toList (by decide)

lemma dropWhileSep_eq_self_of_letters {s rest : List Char} (hne : s ≠ [])
    (hl : ∀ c ∈ s, isTagLetter c = true) :
    (s ++ rest).dropWhile isSepChar = s ++ rest := by
  obtain ⟨c, cs, rfl⟩ := List.exists_cons_of_ne_nil hne
  simp [List.cons_append, List.dropWhile_cons, isSepChar_of_isTagLetter (hl c (by simp))]

/-- C3 counterexample. On `"block,border"` (second clause unsigned and
mid-string) the final selection still contains catalog index 0, whose tag
bitmask does not intersect BORDER: the second unsigned clause added to the
first clause result instead of discarding it and starting from a brand-new
empty set, so the claimed reset did not happen. -/
theorem c3_counterexample_unsigned_does_not_reset :
    chafa_symbol_map_apply_selectors testCatalog chafa_symbol_map_init "block,border".toList =
      some ({ chafa_symbol_map_init with
                desired_symbols := some {0, 5, 1}, need_rebuild := true }, true, none) ∧
    (0 : ℕ) ∈ ({0, 5, 1} : Finset ℕ) ∧
    (entryD testCatalog 0).sc &&& CHAFA_SYMBOL_TAG_BORDER = 0 :=
  ⟨rfl, by decide, by decide⟩

/-- C3 amended: the hard reset to a brand-new empty set happens only for an
unsigned clause reached with both mode flags still clear, which can only be
the first clause of the string; an unsigned clause after an earlier clause
continues in the mode left by that clause. Concretely, for any two unsigned
tag clauses separated by a comma, the first clause discards the pre-existing
selection and starts from the empty set, and the second clause adds to the
first clause result rather than resetting again. -/
theorem c3_amended_unsigned_resets_only_first (cat : List ChafaSymbol) (m : SymbolMap)
    (s1 s2 : List Char) (t1 t2 : ℕ)
    (h1ne : s1 ≠ []) (h1l : ∀ c ∈ s1, isTagLetter c = true)
    (h1t : parse_symbol_tag s1 = some t1)
    (h2ne : s2 ≠ []) (h2l : ∀ c ∈ s2, isTagLetter c = true)
    (h2t : parse_symbol_tag s2 = some t2) :
    chafa_symbol_map_apply_selectors cat m (s1 ++ ',' :: s2) =
      some ({ m with
                desired_symbols := some (add_by_tags cat (add_by_tags cat ∅ t1) t2),
                need_rebuild := true }, true, none) := by
  rw [chafa_symbol_map_apply_selectors]
  have e1 : (s1 ++ ',' :: s2).length + 1 = (s1.length + s2.length + 1) + 1 := by
    simp [List.length_append]
    omega
  rw [e1]
  have hd1 : (s1 ++ ',' :: s2).dropWhile isSepChar = s1 ++ ',' :: s2 :=
    dropWhileSep_eq_self_of_letters h1ne h1l
  rw [parseLoop_step_reset cat m.desired_symbols none (s1.length + s2.length + 1)
      (s1 ++ ',' :: s2) s1 (',' :: s2) t1 hd1 h1ne h1l (by intro c hc; simp at hc; subst hc; decide)
      h1t]
  have hd2 : (',' :: s2).dropWhile isSepChar = s2 ++ [] := by
    rw [List.append_nil]
    obtain ⟨c, cs, rfl⟩ := List.exists_cons_of_ne_nil h2ne
    rw [List.dropWhile_cons, if_pos (by decide : isSepChar ',' = true)]
    exact dropWhile_eq_self_of_head (isSepChar_of_isTagLetter (h2l c (by simp)))
  rw [parseLoop_step_add cat m.desired_symbols (add_by_tags cat ∅ t1)
      (s1.length + s2.length) (',' :: s2) s2 [] t2 hd2 h2ne h2l (by simp) h2t]
  rw [parseLoop_nil cat m.desired_symbols _ _ (by have := List.length_pos.mpr h1ne; omega)]

/-- C3 amended witness: `"block,border"` from a fresh map yields the union
of the BLOCK and BORDER matches of the catalog. -/
theorem c3_amended_unsigned_resets_only_first_witness :
    chafa_symbol_map_apply_selectors testCatalog chafa_symbol_map_init
        ("block".toList ++ ',' :: "border".toList) =
      some ({ chafa_symbol_map_init with
                desired_symbols := some
                  (add_by_tags testCatalog
                    (add_by_tags testCatalog ∅ CHAFA_SYMBOL_TAG_BLOCK)
                    CHAFA_SYMBOL_TAG_BORDER),
                need_rebuild := true }, true, none) :=
  c3_amended_unsigned_resets_only_first testCatalog chafa_symbol_map_init
    "block".toList "border".toList CHAFA_SYMBOL_TAG_BLOCK CHAFA_SYMBOL_TAG_BORDER
    (by decide) (by decide) rfl (by decide) (by decide) rfl

/-- C5: on a map whose selection is exactly the catalog indices matching
SPACE, the selector `"+block,border-dot,stipple"` succeeds, marks the map
dirty, and commits the selection consisting of the indices matching SPACE,
BLOCK or BORDER minus those matching DOT or STIPPLE (the unsigned `border`
clause continues the add mode, the unsigned `stipple` clause continues the
remove mode). -/
theorem c5_plus_block_border_minus_dot_stipple (cat : List ChafaSymbol) (m : SymbolMap)
    (h : m.desired_symbols = some (matchingIdx cat CHAFA_SYMBOL_TAG_SPACE)) :
    chafa_symbol_map_apply_selectors cat m "+block,border-dot,stipple".toList =
      some ({ m with
                desired_symbols := some
                  (((matchingIdx cat CHAFA_SYMBOL_TAG_SPACE ∪
                      matchingIdx cat CHAFA_SYMBOL_TAG_BLOCK) ∪
                      matchingIdx cat CHAFA_SYMBOL_TAG_BORDER) \
                    (matchingIdx cat CHAFA_SYMBOL_TAG_DOT ∪
                      matchingIdx cat CHAFA_SYMBOL_TAG_STIPPLE)),
                need_rebuild := true }, true, none) := by
  have hl : "+block,border-dot,stipple".toList =
      ['+','b','l','o','c','k',',','b','o','r','d','e','r','-','d','o','t',',',
       's','t','i','p','p','l','e'] := rfl
  rw [chafa_symbol_map_apply_selectors, hl, h]
  simp [parseLoop, signStep, isSepChar, isSpaceChar, isTagLetter, parse_symbol_tag,
    symMappings, gStrncasecmpEq, asciiLower, add_by_tags, remove_by_tags,
    sdiff_sdiff_left]

/-- C5 witness on the concrete test catalog, starting from
`chafa_symbol_map_add_by_tags` of SPACE on a fresh map. -/
theorem c5_plus_block_border_minus_dot_stipple_witness :
    chafa_symbol_map_apply_selectors testCatalog
        (chafa_symbol_map_add_by_tags testCatalog chafa_symbol_map_init
          CHAFA_SYMBOL_TAG_SPACE)
        "+block,border-dot,stipple".toList =
      some ({ chafa_symbol_map_add_by_tags testCatalog chafa_symbol_map_init
                CHAFA_SYMBOL_TAG_SPACE with
                desired_symbols := some
                  (((matchingIdx testCatalog CHAFA_SYMBOL_TAG_SPACE ∪
                      matchingIdx testCatalog CHAFA_SYMBOL_TAG_BLOCK) ∪
                      matchingIdx testCatalog CHAFA_SYMBOL_TAG_BORDER) \
                    (matchingIdx testCatalog CHAFA_SYMBOL_TAG_DOT ∪
                      matchingIdx testCatalog CHAFA_SYMBOL_TAG_STIPPLE)),
                need_rebuild := true }, true, none) :=
  c5_plus_block_border_minus_dot_stipple testCatalog
    (chafa_symbol_map_add_by_tags testCatalog chafa_symbol_map_init CHAFA_SYMBOL_TAG_SPACE)
    rfl

lemma length_dropWhile_le (p : Char → Bool) (l : List Char) :
    (l.dropWhile p).length ≤ l.length := by
  induction l with
  | nil => simp
  | cons c cs ih =>
    rw [List.dropWhile_cons]
    split
    · exact Nat.le_trans ih (by simp)
    · simp

lemma length_signStep_le (p1 : List Char) (ia ir : Bool) :
    (signStep p1 ia ir).2.2.length ≤ p1.length := by
  cases p1 with
  | nil => simp [signStep]
  | cons c rest =>
    simp only [signStep]
    split
    · simp
    · split <;> simp
/-- With fuel exceeding the remaining input length the parse loop never
exhausts its fuel. -/
lemma parseLoop_ne_spin (cat : List ChafaSymbol) (d : Option (Finset ℕ)) :
    ∀ (fuel : ℕ) (p0 : List Char) (ia ir : Bool) (ns : Option (Finset ℕ)),
      p0.length < fuel → parseLoop cat d fuel p0 ia ir ns ≠ .spin := by
  intro fuel
  induction fuel with
  | zero => intro p0 ia ir ns h; omega
  | succ n ih =>
    intro p0 ia ir ns h
    by_cases h0 : p0 = []
    · subst h0; simp [parseLoop]
    rw [parseLoop, if_neg h0]
    by_cases h1 : p0.dropWhile isSepChar = []
    · rw [if_pos h1]; simp
    rw [if_neg h1]
    set t := signStep (p0.dropWhile isSepChar) ia ir with ht
    by_cases h3 : t.2.2.dropWhile isSpaceChar = []
    · rw [if_pos h3]; simp
    rw [if_neg h3]
    by_cases h4 : (t.2.2.dropWhile isSpaceChar).takeWhile isTagLetter = []
    · rw [if_pos h4]; simp
    rw [if_neg h4]
    have hlt : ((t.2.2.dropWhile isSpaceChar).drop
        ((t.2.2.dropWhile isSpaceChar).takeWhile isTagLetter).length).length < n := by
      have l1 : (p0.dropWhile isSepChar).length ≤ p0.length := length_dropWhile_le _ _
      have l2 : t.2.2.length ≤ (p0.dropWhile isSepChar).length := length_signStep_le _ _ _
      have l3 : (t.2.2.dropWhile isSpaceChar).length ≤ t.2.2.length := length_dropWhile_le _ _
      have l4 : 0 < ((t.2.2.dropWhile isSpaceChar).takeWhile isTagLetter).length :=
        List.length_pos.mpr h4
      have l5 : 0 < (t.2.2.dropWhile isSpaceChar).length := List.length_pos.mpr h3
      rw [List.length_drop]
      omega
    cases htag : parse_symbol_tag ((t.2.2.dropWhile isSpaceChar).takeWhile isTagLetter) with
    | none => simp
    | some sc =>
      by_cases ha : t.1 = true
      · simp only [ha, if_true]
        cases ns with
        | none =>
          cases d with
          | none => simp
          | some x => exact ih _ _ _ _ hlt
        | some s0 => exact ih _ _ _ _ hlt
      · by_cases hr : t.2.1 = true
        · simp only [ha, hr, if_true, if_false, Bool.false_eq_true]
          cases ns with
          | none =>
            cases d with
            | none => simp
            | some x => exact ih _ _ _ _ hlt
          | some s0 => exact ih _ _ _ _ hlt
        · simp only [ha, hr, if_false, Bool.false_eq_true]
          exact ih _ _ _ _ hlt

/-- With an initialized (non-NULL) `desired_symbols` table the parse loop
never reaches the undefined `copy_hash_table (NULL)` call. -/
lemma parseLoop_some_ne_undef (cat : List ChafaSymbol) (x : Finset ℕ) :
    ∀ (fuel : ℕ) (p0 : List Char) (ia ir : Bool) (ns : Option (Finset ℕ)),
      parseLoop cat (some x) fuel p0 ia ir ns ≠ .undef := by
  intro fuel
  induction fuel with
  | zero => intro p0 ia ir ns; simp [parseLoop]
  | succ n ih =>
    intro p0 ia ir ns
    by_cases h0 : p0 = []
    · subst h0; simp [parseLoop]
    rw [parseLoop, if_neg h0]
    by_cases h1 : p0.dropWhile isSepChar = []
    · rw [if_pos h1]; simp
    rw [if_neg h1]
    set t := signStep (p0.dropWhile isSepChar) ia ir with ht
    by_cases h3 : t.2.2.dropWhile isSpaceChar = []
    · rw [if_pos h3]; simp
    rw [if_neg h3]
    by_cases h4 : (t.2.2.dropWhile isSpaceChar).takeWhile isTagLetter = []
    · rw [if_pos h4]; simp
    rw [if_neg h4]
    cases htag : parse_symbol_tag ((t.2.2.dropWhile isSpaceChar).takeWhile isTagLetter) with
    | none => simp
    | some sc =>
      by_cases ha : t.1 = true
      · simp only [ha, if_true]
        cases ns with
        | none => exact ih _ _ _ _
        | some s0 => exact ih _ _ _ _
      · by_cases hr : t.2.1 = true
        · simp only [ha, hr, if_true, if_false, Bool.false_eq_true]
          cases ns with
          | none => exact ih _ _ _ _
          | some s0 => exact ih _ _ _ _
        · simp only [ha, hr, if_false, Bool.false_eq_true]
          exact ih _ _ _ _

/-- A leading signed clause whose tag name parses drives the loop into the
lazy `copy_hash_table (symbol_map->desired_symbols)` call; with a NULL
table that call is undefined. -/
lemma parseLoop_first_signed_undef (cat : List ChafaSymbol) (fuel : ℕ)
    (p0 r s rest : List Char) (sgn : Char) (t : ℕ) (ia ir : Bool)
    (hdrop : p0.dropWhile isSepChar = sgn :: r)
    (hsgn : sgn = '+' ∨ sgn = '-')
    (hdropsp : r.dropWhile isSpaceChar = s ++ rest)
    (hne : s ≠ []) (hlet : ∀ c ∈ s, isTagLetter c = true)
    (hrest : ∀ c ∈ rest.take 1, isTagLetter c = false)
    (htag : parse_symbol_tag s = some t) :
    parseLoop cat none (fuel + 1) p0 ia ir none = .undef := by
  obtain ⟨c, cs, rfl⟩ := List.exists_cons_of_ne_nil hne
  have hc : isTagLetter c = true := hlet c (by simp)
  rw [List.cons_append] at hdropsp
  have hp0 : p0 ≠ [] := by
    intro h0; rw [h0] at hdrop; exact (List.cons_ne_nil sgn r) hdrop.symm
  have htake : (c :: (cs ++ rest)).takeWhile isTagLetter = c :: cs := by
    rw [← List.cons_append, takeWhile_append_of_all rest hlet]
    cases rest with
    | nil => simp
    | cons r2 rs =>
      have : isTagLetter r2 = false := hrest r2 (by simp)
      simp [List.takeWhile_cons, this]
  rcases hsgn with rfl | rfl
  · rw [parseLoop, if_neg hp0, hdrop, if_neg (List.cons_ne_nil _ r)]
    simp only [signStep, if_true, if_false,
      if_neg (show ¬(('+' : Char) = '-') by decide), if_pos (rfl : ('+' : Char) = '+')]
    rw [hdropsp, if_neg (List.cons_ne_nil c (cs ++ rest)), htake,
      if_neg (List.cons_ne_nil c cs), htag]
  · rw [parseLoop, if_neg hp0, hdrop, if_neg (List.cons_ne_nil _ r)]
    simp only [signStep, if_true, if_false, if_pos (rfl : ('-' : Char) = '-')]
    rw [hdropsp, if_neg (List.cons_ne_nil c (cs ++ rest)), htake,
      if_neg (List.cons_ne_nil c cs), htag]
    simp

/-- C9 counterexample. On a fresh map (selection never initialized) the call
with selector `"+zz"`, whose first effective clause carries a sign, does not
reach the scratch-copy step: the unrecognized-tag error aborts the parse
first, so the call stays inside the defined domain and returns normally,
contradicting the claim that every leading-signed call on a fresh map runs
into the NULL-table copy. -/
theorem c9_counterexample_signed_bad_tag_is_defined :
    chafa_symbol_map_apply_selectors testCatalog chafa_symbol_map_init "+zz".toList =
      some (chafa_symbol_map_init, true, some (.unrecognizedTag "zz".toList)) ∧
    chafa_symbol_map_apply_selectors testCatalog chafa_symbol_map_init "+zz".toList ≠
      none := by
  have h1 : chafa_symbol_map_apply_selectors testCatalog chafa_symbol_map_init
      "+zz".toList =
      some (chafa_symbol_map_init, true, some (.unrecognizedTag "zz".toList)) := rfl
  exact ⟨h1, by rw [h1]; exact Option.some_ne_none _⟩

/-- C9 amended: the selector call is total (never reaches undefined
behavior) whenever the selection table is already initialized; on a map with
a NULL table, a call whose first effective clause carries a sign and names a
tag accepted by the lookup reaches the scratch copy of the NULL table, which
is outside the defined domain (if instead the tag lookup fails, the error
exit occurs before the copy and the call is defined). -/
theorem c9_totality_needs_initialized_selection_for_signed :
    (∀ (cat : List ChafaSymbol) (m : SymbolMap) (s : List Char),
      m.desired_symbols ≠ none → chafa_symbol_map_apply_selectors cat m s ≠ none) ∧
    (∀ (cat : List ChafaSymbol) (m : SymbolMap) (str r s rest : List Char)
        (sgn : Char) (t : ℕ),
      m.desired_symbols = none →
      str.dropWhile isSepChar = sgn :: r →
      (sgn = '+' ∨ sgn = '-') →
      r.dropWhile isSpaceChar = s ++ rest →
      s ≠ [] → (∀ c ∈ s, isTagLetter c = true) →
      (∀ c ∈ rest.take 1, isTagLetter c = false) →
      parse_symbol_tag s = some t →
      chafa_symbol_map_apply_selectors cat m str = none) := by
  constructor
  · intro cat m s hm
    obtain ⟨x, hx⟩ := Option.ne_none_iff_exists'.mp hm
    rw [chafa_symbol_map_apply_selectors, hx]
    cases hres : parseLoop cat (some x) (s.length + 1) s false false none with
    | spin => exact absurd hres (parseLoop_ne_spin cat (some x) _ s false false none (by omega))
    | undef => exact absurd hres (parseLoop_some_ne_undef cat x _ s false false none)
    | errRes e => simp
    | okRes ns => simp
  · intro cat m str r s rest sgn t hm hdrop hsgn hdropsp hne hlet hrest htag
    rw [chafa_symbol_map_apply_selectors, hm]
    rw [parseLoop_first_signed_undef cat str.length str r s rest sgn t false false
      hdrop hsgn hdropsp hne hlet hrest htag]

/-- C9 witness: with an initialized (empty) selection table the
leading-signed call is defined; on the fresh map the same selector reaches
the undefined NULL-table copy. -/
theorem c9_totality_needs_initialized_selection_witness :
    chafa_symbol_map_apply_selectors testCatalog
        { chafa_symbol_map_init with desired_symbols := some ∅ } "+block".toList ≠
      none ∧
    chafa_symbol_map_apply_selectors testCatalog chafa_symbol_map_init "+block".toList =
      none :=
  ⟨c9_totality_needs_initialized_selection_for_signed.1 testCatalog
      { chafa_symbol_map_init with desired_symbols := some ∅ } "+block".toList
      (by simp),
   c9_totality_needs_initialized_selection_for_signed.2 testCatalog
      chafa_symbol_map_init "+block".toList "block".toList "block".toList []
      '+' CHAFA_SYMBOL_TAG_BLOCK rfl rfl (Or.inl rfl)
      (by rfl) (by decide) (by decide) (by decide) rfl⟩

lemma cpLe_trans : ∀ (a b c : ChafaSymbol), cpLe a b = true → cpLe b c = true →
    cpLe a c = true := by
  intro a b c hab hbc
  simp only [cpLe, decide_eq_true_eq] at hab hbc ⊢
  omega

lemma cpLe_total : ∀ (a b : ChafaSymbol), (cpLe a b || cpLe b a) = true := by
  intro a b
  simp only [cpLe, Bool.or_eq_true, decide_eq_true_eq]
  omega

lemma sortedSelection_perm (cat : List ChafaSymbol) (d : Option (Finset ℕ)) :
    (sortedSelection cat d).Perm (((effSel d).sort (· ≤ ·)).map (entryD cat)) :=
  List.mergeSort_perm _ _

lemma mem_sortedSelection (cat : List ChafaSymbol) (d : Option (Finset ℕ))
    (e : ChafaSymbol) :
    e ∈ sortedSelection cat d ↔ ∃ i ∈ effSel d, entryD cat i = e := by
  rw [(sortedSelection_perm cat d).mem_iff, List.mem_map]
  constructor
  · rintro ⟨i, hi, rfl⟩; exact ⟨i, (Finset.mem_sort _).mp hi, rfl⟩
  · rintro ⟨i, hi, rfl⟩; exact ⟨i, (Finset.mem_sort _).mpr hi, rfl⟩

lemma length_sortedSelection (cat : List ChafaSymbol) (d : Option (Finset ℕ)) :
    (sortedSelection cat d).length = (effSel d).card := by
  rw [(sortedSelection_perm cat d).length_eq, List.length_map, Finset.length_sort]

lemma sortedSelection_pairwise_le (cat : List ChafaSymbol) (d : Option (Finset ℕ)) :
    List.Pairwise (fun a b => a.c ≤ b.c) (sortedSelection cat d) := by
  have h := List.sorted_mergeSort cpLe_trans cpLe_total
    (((effSel d).sort (· ≤ ·)).map (entryD cat))
  exact h.imp (fun hab => by simpa [cpLe] using hab)

lemma sortedSelection_map_c_nodup (cat : List ChafaSymbol) (d : Option (Finset ℕ))
    (hinj : ∀ i ∈ effSel d, ∀ j ∈ effSel d, (entryD cat i).c = (entryD cat j).c → i = j) :
    ((sortedSelection cat d).map (fun s => s.c)).Nodup := by
  have hperm : ((sortedSelection cat d).map (fun s => s.c)).Perm
      ((((effSel d).sort (· ≤ ·)).map (entryD cat)).map (fun s => s.c)) :=
    (sortedSelection_perm cat d).map _
  rw [hperm.nodup_iff, List.map_map]
  refine List.Nodup.map_on ?_ (Finset.sort_nodup _ _)
  intro i hi j hj hij
  exact hinj i ((Finset.mem_sort _).mp hi) j ((Finset.mem_sort _).mp hj) hij

/-- C6: after a rebuild, the derived array is exactly the catalog entries
referenced by the selection sorted strictly ascending by codepoint (no
duplicate codepoints), followed by one zero-codepoint sentinel entry, its
length being the selection cardinality plus one; the dirty flag is cleared.
Codepoint distinctness uses the catalog-wide guarantees recorded in the
specification (distinct nonzero codepoints), taken here as hypotheses on the
selected entries. -/
theorem c6_rebuild_derived_index_invariants (cat : List ChafaSymbol) (m : SymbolMap)
    (hinj : ∀ i ∈ effSel m.desired_symbols, ∀ j ∈ effSel m.desired_symbols,
      (entryD cat i).c = (entryD cat j).c → i = j)
    (hnz : ∀ i ∈ effSel m.desired_symbols, (entryD cat i).c ≠ 0) :
    (rebuild_symbols cat m).need_rebuild = false ∧
    (rebuild_symbols cat m).symbols.length = (effSel m.desired_symbols).card + 1 ∧
    (rebuild_symbols cat m).symbols.getLast? = some sentinelSymbol ∧
    (∀ e, e ∈ (rebuild_symbols cat m).symbols.dropLast ↔
      ∃ i ∈ effSel m.desired_symbols, entryD cat i = e) ∧
    List.Pairwise (fun a b => a.c < b.c) (rebuild_symbols cat m).symbols.dropLast ∧
    ((rebuild_symbols cat m).symbols.map (fun s => s.c)).Nodup := by
  have hnodupc := sortedSelection_map_c_nodup cat m.desired_symbols hinj
  refine ⟨rfl, ?_, ?_, ?_, ?_, ?_⟩
  · simp only [rebuild_symbols, List.length_append, List.length_cons, List.length_nil,
      length_sortedSelection]
  · simp only [rebuild_symbols]
    exact List.getLast?_concat _
  · intro e
    simp only [rebuild_symbols, List.dropLast_concat]
    exact mem_sortedSelection cat m.desired_symbols e
  · simp only [rebuild_symbols, List.dropLast_concat]
    have hle := sortedSelection_pairwise_le cat m.desired_symbols
    have hstrict : List.Pairwise (fun a b : ℕ => a < b)
        ((sortedSelection cat m.desired_symbols).map (fun s => s.c)) := by
      have hsorted : List.Sorted (fun a b : ℕ => a ≤ b)
          ((sortedSelection cat m.desired_symbols).map (fun s => s.c)) :=
        List.pairwise_map.mpr hle
      exact List.Sorted.lt_of_le hsorted hnodupc
    exact List.pairwise_map.mp hstrict
  · simp only [rebuild_symbols, List.map_append, List.map_cons, List.map_nil]
    rw [List.nodup_append]
    refine ⟨hnodupc, by simp, ?_⟩
    intro a ha hb
    simp only [sentinelSymbol, List.mem_cons, List.not_mem_nil, or_false] at hb
    subst hb
    rw [List.mem_map] at ha
    obtain ⟨e, he, hec⟩ := ha
    rw [mem_sortedSelection] at he
    obtain ⟨i, hi, rfl⟩ := he
    exact hnz i hi hec

/-- C6 witness at a concrete selection on the test catalog. -/
theorem c6_rebuild_derived_index_invariants_witness :
    (rebuild_symbols testCatalog mSel015).need_rebuild = false ∧
    (rebuild_symbols testCatalog mSel015).symbols.length =
      (effSel mSel015.desired_symbols).card + 1 ∧
    (rebuild_symbols testCatalog mSel015).symbols.getLast? = some sentinelSymbol ∧
    (∀ e, e ∈ (rebuild_symbols testCatalog mSel015).symbols.dropLast ↔
      ∃ i ∈ effSel mSel015.desired_symbols, entryD testCatalog i = e) ∧
    List.Pairwise (fun a b => a.c < b.c)
      (rebuild_symbols testCatalog mSel015).symbols.dropLast ∧
    ((rebuild_symbols testCatalog mSel015).symbols.map (fun s => s.c)).Nodup :=
  c6_rebuild_derived_index_invariants testCatalog mSel015 (by decide) (by decide)

lemma sortedSelection_none (cat : List ChafaSymbol) : sortedSelection cat none = [] := by
  simp [sortedSelection, effSel, Finset.sort_empty]

/-- The early-exit scan of a codepoint-sorted list finds a codepoint exactly
when some entry carries it. -/
lemma scanSymbols_iff (l : List ChafaSymbol)
    (hle : List.Pairwise (fun a b => a.c ≤ b.c) l) (c : ℕ) :
    scanSymbols l c = true ↔ ∃ e ∈ l, e.c = c := by
  induction l with
  | nil => simp [scanSymbols]
  | cons e rest ih =>
    rcases List.pairwise_cons.mp hle with ⟨hhead, htail⟩
    by_cases h1 : e.c = c
    · simp only [scanSymbols, if_pos h1, true_iff]
      exact ⟨e, by simp, h1⟩
    · by_cases h2 : c < e.c
      · simp only [scanSymbols, if_neg h1, if_pos h2, Bool.false_eq_true, false_iff]
        rintro ⟨e2, he2, rfl⟩
        rcases List.mem_cons.mp he2 with rfl | hmem
        · exact h1 rfl
        · exact absurd (hhead e2 hmem) (by omega)
      · rw [scanSymbols, if_neg h1, if_neg h2, ih htail]
        constructor
        · rintro ⟨e2, he2, rfl⟩; exact ⟨e2, by simp [he2], rfl⟩
        · rintro ⟨e2, he2, rfl⟩
          rcases List.mem_cons.mp he2 with rfl | hmem
          · exact absurd rfl h1
          · exact ⟨e2, hmem, rfl⟩

/-- Every API-reachable map satisfies the derived-index consistency
invariant. -/
lemma reach_consistent (cat : List ChafaSymbol) (m : SymbolMap) (h : Reach cat m) :
    Consistent cat m := by
  induction h with
  | init =>
    intro _
    simp [chafa_symbol_map_init, sortedSelection_none]
  | add m tags _ _ =>
    intro hfalse
    simp [chafa_symbol_map_add_by_tags] at hfalse
  | remove m tags _ _ =>
    intro hfalse
    simp [chafa_symbol_map_remove_by_tags] at hfalse
  | prep m _ ih =>
    cases hnr : m.need_rebuild with
    | true =>
      intro _
      simp only [chafa_symbol_map_prepare, hnr, if_true, rebuild_symbols]
      rw [← length_sortedSelection cat m.desired_symbols]
      exact List.take_left _ _
    | false =>
      simpa [chafa_symbol_map_prepare, hnr] using ih
  | copy m _ _ =>
    intro hfalse
    simp [chafa_symbol_map_copy_contents] at hfalse
  | apply m s r b e _ heq ih =>
    rw [chafa_symbol_map_apply_selectors] at heq
    cases hp : parseLoop cat m.desired_symbols (s.length + 1) s false false none with
    | spin => rw [hp] at heq; exact absurd heq (by simp)
    | undef => rw [hp] at heq; exact absurd heq (by simp)
    | errRes e2 =>
      rw [hp] at heq
      simp only [Option.some.injEq, Prod.mk.injEq] at heq
      rw [← heq.1]
      exact ih
    | okRes ns =>
      rw [hp] at heq
      simp only [Option.some.injEq, Prod.mk.injEq] at heq
      intro hfalse
      rw [← heq.1] at hfalse
      simp at hfalse

/-- C7: on any API-reachable map, the membership query right after `prepare`
answers true exactly when some catalog index in the current selection carries
the queried codepoint; the sorted derived index makes the early exit sound. -/
theorem c7_has_symbol_after_prepare (cat : List ChafaSymbol) (m : SymbolMap)
    (hm : Reach cat m) (c : ℕ) :
    chafa_symbol_map_has_symbol (chafa_symbol_map_prepare cat m) c = true ↔
      ∃ i ∈ effSel m.desired_symbols, (entryD cat i).c = c := by
  have hcons : Consistent cat (chafa_symbol_map_prepare cat m) :=
    reach_consistent cat _ (Reach.prep m hm)
  have hnr : (chafa_symbol_map_prepare cat m).need_rebuild = false := by
    cases hx : m.need_rebuild <;>
      simp [chafa_symbol_map_prepare, hx, rebuild_symbols]
  have hdes : (chafa_symbol_map_prepare cat m).desired_symbols = m.desired_symbols := by
    cases hx : m.need_rebuild <;>
      simp [chafa_symbol_map_prepare, hx, rebuild_symbols]
  rw [chafa_symbol_map_has_symbol, hcons hnr, hdes,
    scanSymbols_iff _ (sortedSelection_pairwise_le cat _) c]
  constructor
  · rintro ⟨e, he, rfl⟩
    rw [mem_sortedSelection] at he
    obtain ⟨i, hi, rfl⟩ := he
    exact ⟨i, hi, rfl⟩
  · rintro ⟨i, hi, rfl⟩
    exact ⟨entryD cat i, (mem_sortedSelection _ _ _).mpr ⟨i, hi, rfl⟩, rfl⟩

/-- C7 witness: a reachable map obtained by adding BLOCK to a fresh map,
queried at codepoint 65 after prepare. -/
theorem c7_has_symbol_after_prepare_witness :
    chafa_symbol_map_has_symbol
        (chafa_symbol_map_prepare testCatalog
          (chafa_symbol_map_add_by_tags testCatalog chafa_symbol_map_init
            CHAFA_SYMBOL_TAG_BLOCK)) 65 = true ↔
      ∃ i ∈ effSel (chafa_symbol_map_add_by_tags testCatalog chafa_symbol_map_init
        CHAFA_SYMBOL_TAG_BLOCK).desired_symbols, (entryD testCatalog i).c = 65 :=
  c7_has_symbol_after_prepare testCatalog
    (chafa_symbol_map_add_by_tags testCatalog chafa_symbol_map_init CHAFA_SYMBOL_TAG_BLOCK)
    (Reach.add chafa_symbol_map_init CHAFA_SYMBOL_TAG_BLOCK Reach.init) 65

/-- C8: at heap level, copying a map allocates a fresh table handle for the
destination, distinct from the source handle but holding the same members,
with refcount 1 and the dirty flag set; adding tags through the destination
afterwards leaves the source table cell untouched, and adding tags through
the source leaves the destination table cell untouched. -/
theorem c8_copy_contents_no_aliasing (cat : List ChafaSymbol) (h : HHeap)
    (src : HSymbolMap) (i tags : ℕ)
    (hsrc : src.desired_symbols = some i) (hi : i < h.length) :
    (chafa_symbol_map_copy_contentsH h src).2.desired_symbols = some h.length ∧
    h.length ≠ i ∧
    (chafa_symbol_map_copy_contentsH h src).2.refs = 1 ∧
    (chafa_symbol_map_copy_contentsH h src).2.need_rebuild = true ∧
    (chafa_symbol_map_copy_contentsH h src).1.getD h.length ∅ = h.getD i ∅ ∧
    (chafa_symbol_map_add_by_tagsH cat (chafa_symbol_map_copy_contentsH h src).1
        (chafa_symbol_map_copy_contentsH h src).2 tags).1.getD i ∅ = h.getD i ∅ ∧
    (chafa_symbol_map_add_by_tagsH cat (chafa_symbol_map_copy_contentsH h src).1 src
        tags).1.getD h.length ∅ =
      (chafa_symbol_map_copy_contentsH h src).1.getD h.length ∅ := by
  have hne : h.length ≠ i := by omega
  refine ⟨?_, hne, ?_, ?_, ?_, ?_, ?_⟩
  · simp [chafa_symbol_map_copy_contentsH, hsrc, copy_hash_tableH]
  · simp [chafa_symbol_map_copy_contentsH, hsrc, copy_hash_tableH]
  · simp [chafa_symbol_map_copy_contentsH, hsrc, copy_hash_tableH]
  · simp [chafa_symbol_map_copy_contentsH, hsrc, copy_hash_tableH, List.getD]
  · simp only [chafa_symbol_map_copy_contentsH, hsrc, copy_hash_tableH,
      chafa_symbol_map_add_by_tagsH]
    rw [List.getD, List.get?_eq_getElem?, List.getElem?_set_ne hne,
      ← List.get?_eq_getElem?, ← List.getD]
    exact List.getD_append _ _ _ _ hi
  · simp only [chafa_symbol_map_copy_contentsH, hsrc, copy_hash_tableH,
      chafa_symbol_map_add_by_tagsH]
    rw [List.getD, List.get?_eq_getElem?, List.getElem?_set_ne (by omega),
      ← List.get?_eq_getElem?, ← List.getD]

/-- C8 witness on a one-table heap. -/
theorem c8_copy_contents_no_aliasing_witness :
    (chafa_symbol_map_copy_contentsH [{0, 1}] ⟨some 0, [], 0, false, 1⟩).2.desired_symbols =
      some 1 ∧
    (1 : ℕ) ≠ 0 ∧
    (chafa_symbol_map_copy_contentsH [{0, 1}] ⟨some 0, [], 0, false, 1⟩).2.refs = 1 ∧
    (chafa_symbol_map_copy_contentsH [{0, 1}] ⟨some 0, [], 0, false, 1⟩).2.need_rebuild =
      true ∧
    (chafa_symbol_map_copy_contentsH [{0, 1}] ⟨some 0, [], 0, false, 1⟩).1.getD 1 ∅ =
      List.getD [{0, 1}] 0 ∅ ∧
    (chafa_symbol_map_add_by_tagsH testCatalog
        (chafa_symbol_map_copy_contentsH [{0, 1}] ⟨some 0, [], 0, false, 1⟩).1
        (chafa_symbol_map_copy_contentsH [{0, 1}] ⟨some 0, [], 0, false, 1⟩).2
        CHAFA_SYMBOL_TAG_BLOCK).1.getD 0 ∅ = List.getD [{0, 1}] 0 ∅ ∧
    (chafa_symbol_map_add_by_tagsH testCatalog
        (chafa_symbol_map_copy_contentsH [{0, 1}] ⟨some 0, [], 0, false, 1⟩).1
        ⟨some 0, [], 0, false, 1⟩ CHAFA_SYMBOL_TAG_BLOCK).1.getD 1 ∅ =
      (chafa_symbol_map_copy_contentsH [{0, 1}] ⟨some 0, [], 0, false, 1⟩).1.getD 1 ∅ := by
  have hmain := c8_copy_contents_no_aliasing testCatalog [{0, 1}]
    ⟨some 0, [], 0, false, 1⟩ 0 CHAFA_SYMBOL_TAG_BLOCK rfl (by decide)
  exact hmain

end Chafa
